import Mathlib

/-!
Shallow embedding of the `aio` Go library (audio I/O via ffmpeg/ffprobe/ffplay)
and proofs about its format catalog, sample codec, metadata parsing, device-name
parsing and the `Audio` handle's buffer/lifecycle operations.

Go byte buffers are modelled as `List Nat` with each element `< 256`; Go strings
as Lean `String` (all strings involved are ASCII); a Go function that can panic
(slice out-of-range, division by zero) returns a `GoResult`.
-/

namespace Aio

/-- Outcome of running a Go function: a normal return value, or a runtime panic
(out-of-range slice index, integer division by zero). -/
inductive GoResult (α : Type) where
  | ok (a : α) : GoResult α
  | panic : GoResult α
deriving DecidableEq

/-- Matcher for the anchored regular expression
`^(([us]8)|([us]((16)|(24)|(32))[bl]e)|(f((32)|(64))[bl]e))$`
used by `checkFormat` (utils.go). The regex is anchored on both sides, so a
string matches iff it is two characters `[us]8`, or five characters
`[us](16|24|32)[bl]e` or `f(32|64)[bl]e`. -/
def matchesFormat (format : String) : Bool :=
  match format.toList with
  | [k, w] => (k == 'u' || k == 's') && w == '8'
  | [k, d1, d2, b, e] =>
      ((k == 'u' || k == 's') &&
        ((d1 == '1' && d2 == '6') || (d1 == '2' && d2 == '4') || (d1 == '3' && d2 == '2')) ||
       k == 'f' && ((d1 == '3' && d2 == '2') || (d1 == '6' && d2 == '4'))) &&
      (b == 'b' || b == 'l') && e == 'e'
  | _ => false

/-- Embedding of `checkFormat` (utils.go): on a match it returns no error
(`.ok none`); otherwise it builds the error message, slicing
`format[:len(format)-2]` — for a non-matching token shorter than two bytes that
slice has a negative upper bound and Go panics, modelled by `.panic`. -/
def checkFormat (format : String) : GoResult (Option String) :=
  if matchesFormat format then .ok none
  else if format.length < 2 then .panic
  else
    .ok (some ("audio format " ++ format.take (format.length - 2) ++
      " is not supported, must be one of u8, s8, u16, s16, u24, s24, u32, s32, f32, or f64"))

/-- The eighteen format tokens accepted by the `checkFormat` regex. -/
def supportedTokens : List String :=
  ["u8", "s8", "u16le", "u16be", "u24le", "u24be", "u32le", "u32be",
   "s16le", "s16be", "s24le", "s24be", "s32le", "s32be",
   "f32le", "f32be", "f64le", "f64be"]

/-- Observer: `checkFormat` returned the unsupported-format error (as opposed to
succeeding or panicking). -/
def isFormatError : GoResult (Option String) → Bool
  | .ok (some _) => true
  | _ => false

lemma matchesFormat_iff_mem (format : String) :
    matchesFormat format = true ↔ format ∈ supportedTokens := by
  constructor
  · intro h
    obtain ⟨data⟩ := format
    rcases data with _ | ⟨k, _ | ⟨c2, _ | ⟨c3, _ | ⟨c4, _ | ⟨c5, _ | ⟨c6, rest⟩⟩⟩⟩⟩⟩
    · exact Bool.noConfusion h
    · exact Bool.noConfusion h
    · have h' : ((k == 'u' || k == 's') && c2 == '8') = true := h
      simp only [Bool.and_eq_true, Bool.or_eq_true, beq_iff_eq] at h'
      obtain ⟨hk | hk, hw⟩ := h' <;> subst_vars <;> decide
    · exact Bool.noConfusion h
    · exact Bool.noConfusion h
    · have h' : (((k == 'u' || k == 's') &&
          ((c2 == '1' && c3 == '6') || (c2 == '2' && c3 == '4') || (c2 == '3' && c3 == '2')) ||
          k == 'f' && ((c2 == '3' && c3 == '2') || (c2 == '6' && c3 == '4'))) &&
          (c4 == 'b' || c4 == 'l') && c5 == 'e') = true := h
      simp only [Bool.and_eq_true, Bool.or_eq_true, beq_iff_eq] at h'
      obtain ⟨⟨⟨hk | hk, (⟨h1, h2⟩ | ⟨h1, h2⟩) | ⟨h1, h2⟩⟩ | ⟨hk, ⟨h1, h2⟩ | ⟨h1, h2⟩⟩,
        hb | hb⟩, he⟩ := h' <;> subst_vars <;> decide
    · exact Bool.noConfusion h
  · intro h
    fin_cases h <;> decide

/-- C2: Format validation (`checkFormat`) succeeds for exactly the eighteen
tokens u8, s8, u16le, u16be, u24le, u24be, u32le, u32be, s16le, s16be, s24le,
s24be, s32le, s32be, f32le, f32be, f64le, f64be, and fails (returns the
unsupported-format error) on each of alaw, mulaw, f32, f64 and u8be. -/
theorem checkFormat_catalog :
    (∀ format : String, checkFormat format = .ok none ↔ format ∈ supportedTokens) ∧
    ((["alaw", "mulaw", "f32", "f64", "u8be"] : List String).all
      (fun t => isFormatError (checkFormat t))) = true := by
  constructor
  · intro format
    constructor
    · intro h
      rw [← matchesFormat_iff_mem]
      unfold checkFormat at h
      split at h
      · assumption
      · split at h <;> simp at h
    · intro h
      have hm := (matchesFormat_iff_mem format).mpr h
      simp only [checkFormat, hm, if_true]
  · decide

/-- C2 witness: concrete instances of the catalog theorem. -/
theorem checkFormat_catalog_witness :
    checkFormat "u16le" = .ok none ∧ checkFormat "u8be" ≠ .ok none :=
  ⟨(checkFormat_catalog.1 "u16le").mpr (by decide),
   fun h => absurd ((checkFormat_catalog.1 "u8be").mp h) (by decide)⟩

/-- C9: on any format token shorter than two characters (such a token never
matches the format regex, whose shortest words have two characters),
`checkFormat` does not return: building the error message evaluates
`format[:len(format)-2]`, a slice with negative upper bound, and panics. -/
theorem checkFormat_short_panics (format : String) (h : format.length < 2) :
    checkFormat format = .panic := by
  have hm : matchesFormat format = false := by
    obtain ⟨data⟩ := format
    rcases data with _ | ⟨k, _ | ⟨c2, rest⟩⟩
    · rfl
    · rfl
    · exfalso
      simp only [String.length, List.length] at h
      omega
  simp only [checkFormat, hm, Bool.false_eq_true, if_false]
  rw [if_pos h]

/-- C9 witness: `checkFormat` panics on the one-character token `"x"` and on
the empty token. -/
theorem checkFormat_short_panics_witness :
    checkFormat "x" = .panic ∧ checkFormat "" = .panic :=
  ⟨checkFormat_short_panics "x" (by decide), checkFormat_short_panics "" (by decide)⟩

/-! ## Sample codec (`bytesToSamples` / `samplesToBytes`, utils.go)

The Go code reinterprets the memory of a `[]byte` as a slice of a wider element
type (and back) through `unsafe.Pointer`, without copying. On the little-endian
machines the library targets, the observable content of a `w`-byte element is
the little-endian value of its `w` underlying bytes, so the aliasing is
modelled by decoding consecutive `w`-byte chunks into `Nat` bit patterns and
re-encoding them. -/

/-- Little-endian value of a list of bytes (bit pattern of one element as laid
out in memory). -/
def natFromBytesLE : List Nat → Nat
  | [] => 0
  | b :: rest => b + 256 * natFromBytesLE rest

/-- The `w` little-endian bytes of value `v` (memory layout of one element). -/
def natToBytesLE : Nat → Nat → List Nat
  | 0, _ => []
  | w + 1, v => v % 256 :: natToBytesLE w (v / 256)

/-- Decode `n` consecutive `w`-byte chunks of `buffer` (the element values an
aliased slice of length `n` exposes). -/
def decodeChunks (w : Nat) : Nat → List Nat → List Nat
  | 0, _ => []
  | n + 1, buffer => natFromBytesLE (buffer.take w) :: decodeChunks w n (buffer.drop w)

/-- The dynamic type of the value returned by `bytesToSamples` and consumed by
`samplesToBytes`: one constructor per Go slice element type, each holding the
element bit patterns. `u8` also covers the `default` branch of
`bytesToSamples`, which returns the `[]byte` buffer itself. -/
inductive Samples where
  | u8 (data : List Nat)
  | s8 (data : List Nat)
  | u16 (data : List Nat)
  | s16 (data : List Nat)
  | u32 (data : List Nat)
  | s32 (data : List Nat)
  | f32 (data : List Nat)
  | f64 (data : List Nat)
deriving DecidableEq

/-- Embedding of `bytesToSamples` (utils.go): alias the byte buffer as a slice
of `size` elements of the type selected by `format`; any other format
(`u8`, the 24-bit formats, or anything else) falls through to the `default`
branch and returns the byte buffer unchanged. -/
def bytesToSamples (buffer : List Nat) (size : Nat) (format : String) : Samples :=
  match format with
  | "f32be" | "f32le" => .f32 (decodeChunks 4 size buffer)
  | "f64be" | "f64le" => .f64 (decodeChunks 8 size buffer)
  | "s16be" | "s16le" => .s16 (decodeChunks 2 size buffer)
  | "s32be" | "s32le" => .s32 (decodeChunks 4 size buffer)
  | "s8" => .s8 (decodeChunks 1 size buffer)
  | "u16be" | "u16le" => .u16 (decodeChunks 2 size buffer)
  | "u32be" | "u32le" => .u32 (decodeChunks 4 size buffer)
  | _ => .u8 buffer

/-- Embedding of `samplesToBytes` (utils.go): alias the typed slice as its
underlying `len(data) * elementWidth` bytes. -/
def samplesToBytes : Samples → List Nat
  | .u8 data => data
  | .s8 data => data.flatMap (natToBytesLE 1)
  | .u16 data => data.flatMap (natToBytesLE 2)
  | .s16 data => data.flatMap (natToBytesLE 2)
  | .u32 data => data.flatMap (natToBytesLE 4)
  | .s32 data => data.flatMap (natToBytesLE 4)
  | .f32 data => data.flatMap (natToBytesLE 4)
  | .f64 data => data.flatMap (natToBytesLE 8)

/-- `len()` of the slice returned by `bytesToSamples`. -/
def samplesLength : Samples → Nat
  | .u8 data => data.length
  | .s8 data => data.length
  | .u16 data => data.length
  | .s16 data => data.length
  | .u32 data => data.length
  | .s32 data => data.length
  | .f32 data => data.length
  | .f64 data => data.length

/-- Leftmost match of the regex `\d{1,2}` (audio.go uses it to read the bit
width out of a format token): the first digit, together with the digit
immediately following it when there is one. -/
def findDigits : List Char → List Char
  | [] => []
  | c :: rest =>
    if c.isDigit then
      match rest with
      | c2 :: _ => if c2.isDigit then [c, c2] else [c]
      | [] => [c]
    else findDigits rest

/-- Decimal value of a digit string (`strconv.ParseFloat` on the digit run,
which is a small integer here). -/
def digitsToNat (cs : List Char) : Nat :=
  cs.foldl (fun acc c => acc * 10 + (c.toNat - '0'.toNat)) 0

/-- Bytes per sample of a format token: the bit width parsed out of the token
(audio.go: `parse(regexp \d{1,2} .FindString(format))`), divided by 8
(`audio.bps / 8`, as in `Samples()`). -/
def bytesPerSample (format : String) : Nat :=
  digitsToNat (findDigits format.toList) / 8

/-- The fourteen supported formats that `bytesToSamples` maps to a typed view
of the right width: everything except the four 24-bit tokens. -/
def typedFormats : List String :=
  ["u8", "s8", "u16le", "u16be", "s16le", "s16be",
   "u32le", "u32be", "s32le", "s32be", "f32le", "f32be", "f64le", "f64be"]

lemma natToBytesLE_natFromBytesLE (chunk : List Nat) (hb : ∀ b ∈ chunk, b < 256) :
    natToBytesLE chunk.length (natFromBytesLE chunk) = chunk := by
  induction chunk with
  | nil => rfl
  | cons b rest ih =>
      have hblt : b < 256 := hb b (List.mem_cons_self b rest)
      simp only [List.length_cons, natFromBytesLE, natToBytesLE]
      have h1 : (b + 256 * natFromBytesLE rest) % 256 = b := by omega
      have h2 : (b + 256 * natFromBytesLE rest) / 256 = natFromBytesLE rest := by omega
      rw [h1, h2, ih (fun x hx => hb x (List.mem_cons_of_mem b hx))]

lemma flatMap_decodeChunks (w : Nat) (n : Nat) :
    ∀ buffer : List Nat, (∀ b ∈ buffer, b < 256) → buffer.length = w * n →
      (decodeChunks w n buffer).flatMap (natToBytesLE w) = buffer := by
  induction n with
  | zero =>
      intro buffer _ hlen
      simp only [Nat.mul_zero, List.length_eq_zero] at hlen
      subst hlen
      rfl
  | succ n ih =>
      intro buffer hb hlen
      have hwle : w ≤ buffer.length := by
        rw [hlen, Nat.mul_succ]
        omega
      have htake : (buffer.take w).length = w := by
        rw [List.length_take]
        omega
      have hchunk := natToBytesLE_natFromBytesLE (buffer.take w)
        (fun b hbmem => hb b (List.mem_of_mem_take hbmem))
      rw [htake] at hchunk
      have hdrop := ih (buffer.drop w) (fun b hbmem => hb b (List.mem_of_mem_drop hbmem))
        (by rw [List.length_drop, hlen, Nat.mul_succ]; omega)
      simp only [decodeChunks, List.flatMap_cons, hchunk, hdrop]
      exact List.take_append_drop w buffer

/-- C1: for every format with a typed view (every supported format except the
24-bit ones) and every byte buffer whose length is a multiple of the format's
bytes-per-sample, `samplesToBytes` applied to
`bytesToSamples(buffer, len(buffer)/bytesPerSample(format), format)` returns a
byte sequence identical to the original buffer. -/
theorem codec_roundtrip (buffer : List Nat) (format : String)
    (hb : ∀ b ∈ buffer, b < 256) (hf : format ∈ typedFormats)
    (hdvd : bytesPerSample format ∣ buffer.length) :
    samplesToBytes (bytesToSamples buffer (buffer.length / bytesPerSample format) format) =
      buffer := by
  fin_cases hf
  · rfl
  all_goals
    exact flatMap_decodeChunks _ _ buffer hb (Nat.mul_div_cancel' hdvd).symm

/-- C1 witness: round trip at a concrete buffer and format. -/
theorem codec_roundtrip_witness :
    samplesToBytes (bytesToSamples [1, 2, 3, 4] (([1, 2, 3, 4] : List Nat).length /
      bytesPerSample "s16le") "s16le") = [1, 2, 3, 4] :=
  codec_roundtrip [1, 2, 3, 4] "s16le" (by decide) (by decide) (by decide)

lemma length_decodeChunks (w n : Nat) (buffer : List Nat) :
    (decodeChunks w n buffer).length = n := by
  induction n generalizing buffer with
  | zero => rfl
  | succ n ih => simp only [decodeChunks, List.length_cons, ih]

/-- C3 counterexample: for the supported 24-bit format `"u24le"`, a 3-byte
buffer and the valid element count `n = 3 / bytesPerSample("u24le") = 1`,
`bytesToSamples` falls through to its `default` branch and returns the raw
3-element byte buffer, so `len(view) * bytesPerSample = 9 ≠ 3 = len(buffer)`:
the invariant fails on the 24-bit formats. -/
theorem samples_length_24bit_counterexample :
    ¬ (samplesLength (bytesToSamples [0, 0, 0] (([0, 0, 0] : List Nat).length /
        bytesPerSample "u24le") "u24le") * bytesPerSample "u24le" =
      ([0, 0, 0] : List Nat).length) := by decide

/-- C3 amended: for every byte buffer `b`, every supported format `f` *other
than the four 24-bit formats*, and the valid element count
`n = len(b) / bytesPerSample(f)` (with `len(b)` a multiple of
`bytesPerSample(f)`), the view returned by `bytesToSamples(b, n, f)` satisfies
`len(view) * bytesPerSample(f) = len(b)`. -/
theorem samples_length_invariant (buffer : List Nat) (format : String)
    (hf : format ∈ typedFormats) (hdvd : bytesPerSample format ∣ buffer.length) :
    samplesLength (bytesToSamples buffer (buffer.length / bytesPerSample format) format) *
      bytesPerSample format = buffer.length := by
  fin_cases hf
  · exact Nat.mul_one _
  all_goals
    simp only [bytesToSamples, samplesLength, length_decodeChunks]
    exact Nat.div_mul_cancel hdvd

/-- C3 witness: the amended invariant at a concrete buffer and format. -/
theorem samples_length_invariant_witness :
    samplesLength (bytesToSamples [1, 2, 3, 4, 5, 6, 7, 8] (([1, 2, 3, 4, 5, 6, 7, 8] :
      List Nat).length / bytesPerSample "f32be") "f32be") * bytesPerSample "f32be" =
      ([1, 2, 3, 4, 5, 6, 7, 8] : List Nat).length :=
  samples_length_invariant [1, 2, 3, 4, 5, 6, 7, 8] "f32be" (by decide) (by decide)

/-! ## Text parsing helpers

Character-list models of the `strings` package functions the repository uses
(`Split`, `Contains`, `Index`, `ReplaceAll`, `ToLower` — the inputs involved
are ASCII, so `ToLower` is modelled by ASCII lowercasing). -/

/-- `strings.Split` on a one-character separator. -/
def splitChar (sep : Char) : List Char → List (List Char)
  | [] => [[]]
  | c :: rest =>
    if c == sep then [] :: splitChar sep rest
    else
      match splitChar sep rest with
      | [] => [[c]]
      | l :: ls => (c :: l) :: ls

/-- Whether `needle` occurs at the start of the second list. -/
def isPrefixList : List Char → List Char → Bool
  | [], _ => true
  | _ :: _, [] => false
  | p :: ps, c :: cs => p == c && isPrefixList ps cs

/-- `strings.Contains`: whether `needle` occurs anywhere in the list. -/
def containsList (needle : List Char) : List Char → Bool
  | [] => isPrefixList needle []
  | c :: rest => isPrefixList needle (c :: rest) || containsList needle rest

/-- `strings.Index`: position of the first occurrence of `needle`, if any
(Go returns -1 for "absent", modelled as `none`). -/
def indexOfList (needle : List Char) : List Char → Option Nat
  | [] => if isPrefixList needle [] then some 0 else none
  | c :: rest =>
    if isPrefixList needle (c :: rest) then some 0
    else (indexOfList needle rest).map (· + 1)

/-- ASCII case folding of one character (`strings.ToLower` on the ASCII
device-listing and format text this library parses). -/
def asciiLowerChar (c : Char) : Char :=
  if 'A' ≤ c ∧ c ≤ 'Z' then Char.ofNat (c.toNat + 32) else c

/-- `strings.ReplaceAll(s, "\r\n", "\n")`: left-to-right replacement of CRLF
pairs by LF. -/
def replaceCRLF : List Char → List Char
  | '\r' :: '\n' :: rest => '\n' :: replaceCRLF rest
  | c :: rest => c :: replaceCRLF rest
  | [] => []

/-! ## Metadata probe parsing (`ffprobe`, utils.go lines 80–98)

`ffprobe` splits its captured output into newline-separated records; each
non-blank record is split on `|`; each piece containing `=` is split on `=`
and contributes `keyValue[0] -> keyValue[1]`, but only when the key is not
already present in the record's map (first occurrence wins). The Go
`map[string]string` is modelled as an association list whose observable
interface is `List.lookup`. -/

/-- The `(keyValue[0], keyValue[1])` pairs of one record, in encounter order:
split the record on `|` and keep, for every piece containing `=`, its first
two `=`-separated fields. -/
def recordPairs (stream : String) : List (String × String) :=
  (splitChar '|' stream.toList).filterMap fun line =>
    if containsList ['='] line then
      match splitChar '=' line with
      | k :: v :: _ => some (String.mk k, String.mk v)
      | _ => none
    else none

/-- `data[k] = v` guarded by `if _, ok := data[k]; !ok`: bind `k` to `v` only
when `k` is not yet bound. -/
def insertKV (data : List (String × String)) (k v : String) : List (String × String) :=
  match data.lookup k with
  | some _ => data
  | none => (k, v) :: data

/-- The key/value map `ffprobe` builds for one record. -/
def parseRecord (stream : String) : List (String × String) :=
  (recordPairs stream).foldl (fun data p => insertKV data p.1 p.2) []

/-- The per-stream record list `ffprobe` builds from its whole output: one map
per non-blank newline-separated record. -/
def parseProbeOutput (metadata : String) : List (List (String × String)) :=
  (splitChar '\n' metadata.toList).filterMap fun stream =>
    if 0 < (String.mk stream).trim.length then some (parseRecord (String.mk stream)) else none

lemma lookup_foldl_insertKV (pairs : List (String × String)) (k : String) :
    ∀ acc : List (String × String),
      (pairs.foldl (fun d p => insertKV d p.1 p.2) acc).lookup k =
        (acc.lookup k).or ((pairs.find? (fun p => p.1 == k)).map Prod.snd) := by
  induction pairs with
  | nil =>
      intro acc
      simp only [List.foldl_nil, List.find?_nil, Option.map_none']
      cases acc.lookup k <;> rfl
  | cons p ps ih =>
      intro acc
      simp only [List.foldl_cons, List.find?_cons]
      rw [ih]
      by_cases hpk : (p.1 == k) = true
      · simp only [hpk]
        have hk : p.1 = k := by rwa [beq_iff_eq] at hpk
        subst hk
        unfold insertKV
        cases hacc : acc.lookup p.1 with
        | some v => simp only [hacc]; rfl
        | none =>
            simp only [hacc, List.lookup_cons, beq_self_eq_true]
            rfl
      · rw [Bool.not_eq_true] at hpk
        simp only [hpk]
        have hne : p.1 ≠ k := by rwa [← beq_eq_false_iff_ne]
        unfold insertKV
        cases hacc : acc.lookup p.1 with
        | some v => simp only [hacc]
        | none =>
            have hkp : (k == p.1) = false := by
              rw [beq_eq_false_iff_ne]
              exact fun h => hne h.symm
            simp only [hacc, List.lookup_cons, hkp]

/-- C4: within one probe record, only the first value seen for a key is kept
(later duplicates are silently discarded): looking a key up in the built map
returns the value of the key's first `key=value` piece; in particular the
record text `"a=1|b=2|a=3"` maps `a` to `"1"` and `b` to `"2"`. -/
theorem ffprobe_first_wins :
    (∀ stream k : String,
      (parseRecord stream).lookup k =
        ((recordPairs stream).find? (fun p => p.1 == k)).map Prod.snd) ∧
    (parseRecord "a=1|b=2|a=3").lookup "a" = some "1" ∧
    (parseRecord "a=1|b=2|a=3").lookup "b" = some "2" := by
  refine ⟨fun stream k => ?_, by decide, by decide⟩
  rw [parseRecord, lookup_foldl_insertKV]
  rfl

/-! ## Device enumeration (`parseDevices`, utils.go lines 126–167)

`parseDevices` trims everything before the case-insensitive
"directshow audio device" marker, normalizes CRLF, splits into lines, and
scans each line for the first double-quoted substring (regex `"[^"]+"`): on an
"alternative name" line the quoted text becomes the alternate name of the last
collected pair — indexing `pairs[len(pairs)-1]`, which panics when no pair has
been collected yet — and otherwise it starts a new pair. A second loop then
builds the device-name list. -/

/-- First match of the regex `"[^"]+"` in a line, with the surrounding quotes
stripped (the code slices `match[1:len(match)-1]`): the first double quote
followed by at least one non-quote character and then a closing quote. -/
def findQuoted : List Char → Option (List Char)
  | [] => none
  | '"' :: rest =>
    let content := rest.takeWhile (fun c => c != '"')
    if 0 < content.length ∧ content.length < rest.length then some content
    else findQuoted rest
  | _ :: rest => findQuoted rest

/-- Embedding of the `contains` helper (utils.go): linear scan by string
equality. -/
def contains : List String → String → Bool
  | [], _ => false
  | i :: rest, item => if i == item then true else contains rest item

/-- The first loop of `parseDevices`: collect `(name, alt)` pairs from the
lines, panicking (`pairs[len(pairs)-1]` on an empty slice) when an
"alternative name" line with a quoted substring precedes every primary device
line. -/
def buildPairs : List (List Char) → List (String × String) → GoResult (List (String × String))
  | [], pairs => .ok pairs
  | line :: rest, pairs =>
    if containsList ("alternative name".toList) (line.map asciiLowerChar) then
      match findQuoted line with
      | some m =>
          match pairs.getLast? with
          | none => .panic
          | some last => buildPairs rest (pairs.dropLast ++ [(last.1, String.mk m)])
      | none => buildPairs rest pairs
    else
      match findQuoted line with
      | some m => buildPairs rest (pairs ++ [(String.mk m, "")])
      | none => buildPairs rest pairs

/-- The second loop of `parseDevices`: build the output list in encounter
order; a pair whose primary name is already in the list built so far
contributes its alternate name, every other pair its primary name. -/
def devicesFromPairs (pairs : List (String × String)) : List String :=
  pairs.foldl
    (fun devices pair =>
      if contains devices pair.1 then devices ++ [pair.2] else devices ++ [pair.1])
    []

/-- Embedding of `parseDevices` (utils.go): trim to the audio-device section,
normalize line endings, split into lines, collect pairs, and resolve names. -/
def parseDevices (buffer : String) : GoResult (List String) :=
  let chars := buffer.toList
  let trimmed :=
    match indexOfList ("directshow audio device".toList) (chars.map asciiLowerChar) with
    | some i => chars.drop i
    | none => chars
  match buildPairs (splitChar '\n' (replaceCRLF trimmed)) [] with
  | .ok pairs => .ok (devicesFromPairs pairs)
  | .panic => .panic

lemma length_devicesFromPairs_foldl (pairs : List (String × String)) :
    ∀ acc : List String,
      (pairs.foldl
        (fun devices pair =>
          if contains devices pair.1 then devices ++ [pair.2] else devices ++ [pair.1])
        acc).length = acc.length + pairs.length := by
  induction pairs with
  | nil => intro acc; rfl
  | cons p ps ih =>
      intro acc
      simp only [List.foldl_cons, List.length_cons, ih]
      split <;> simp only [List.length_append, List.length_cons, List.length_nil] <;> omega

/-- C5: device-name resolution builds its output in encounter order — the list
for `pairs ++ [p]` is the list for `pairs` with one element appended, namely
`p`'s alternate name when `p`'s primary name already occurs in the list built
so far (even when that alternate name is empty) and `p`'s primary name
otherwise; the output has one element per device entry; in particular for two
entries with the same primary name whose second carries alternate name
`"Alt"` (resp. the empty alternate), the second output element is `"Alt"`
(resp. `""`). -/
theorem devices_encounter_order :
    (∀ (pairs : List (String × String)) (p : String × String),
      devicesFromPairs (pairs ++ [p]) =
        devicesFromPairs pairs ++
          [if contains (devicesFromPairs pairs) p.1 then p.2 else p.1]) ∧
    (∀ pairs : List (String × String),
      (devicesFromPairs pairs).length = pairs.length) ∧
    devicesFromPairs [("Mic", ""), ("Mic", "Alt")] = ["Mic", "Alt"] ∧
    devicesFromPairs [("Mic", ""), ("Mic", "")] = ["Mic", ""] := by
  refine ⟨fun pairs p => ?_, fun pairs => ?_, by decide, by decide⟩
  · simp only [devicesFromPairs, List.foldl_append, List.foldl_cons, List.foldl_nil]
    split <;> rfl
  · rw [devicesFromPairs, length_devicesFromPairs_foldl]
    simp

/-- C10: there is a device-listing input on which `parseDevices` panics
instead of returning a list: when a line whose lowercase form contains
"alternative name" and which contains a quoted substring precedes every
primary device line, `pairs[len(pairs)-1]` indexes an empty slice. -/
theorem parseDevices_panics :
    parseDevices "Alternative name \"Alt\"" = .panic := by decide

/-! ## IEEE-754 binary64 rounding

`Total()` computes `float64(second) * duration` in Go, which rounds the exact
product to the nearest binary64 value (ties to even) before `math.Ceil`. The
rounding is modelled exactly for nonzero finite values in the binary64 normal
range: write the input as `±(a/b) * 2^e` with `a/b ∈ [2^52, 2^53)` and round
`a/b` to an integer, half to even, giving the 53-bit significand. The fuel
bound 1200 covers every exponent a finite `float64` can take; gradual
underflow below `2^-1022` and overflow to infinity at `2^1024` are outside
the byte counts and durations this library handles and are not modelled. All
arithmetic is on `ℤ`/`ℕ` so that concrete evaluations reduce. -/

/-- Double `a` (at most `fuel` times) until `a/b ≥ 2^52`, decrementing the
binary exponent `e`; returns `(a, b, e)`. -/
def scaleUpZ : ℕ → ℤ → ℤ → ℤ → ℤ × ℤ × ℤ
  | 0, a, b, e => (a, b, e)
  | fuel + 1, a, b, e =>
    if a < 2 ^ 52 * b then scaleUpZ fuel (2 * a) b (e - 1) else (a, b, e)

/-- Double `b` (at most `fuel` times) until `a/b < 2^53`, incrementing the
binary exponent `e`; returns `(a, b, e)`. -/
def scaleDownZ : ℕ → ℤ → ℤ → ℤ → ℤ × ℤ × ℤ
  | 0, a, b, e => (a, b, e)
  | fuel + 1, a, b, e =>
    if 2 ^ 53 * b ≤ a then scaleDownZ fuel a (2 * b) (e + 1) else (a, b, e)

/-- Round `a/b` (with `a, b > 0`) to the nearest integer, half to even. -/
def roundHalfEvenZ (a b : ℤ) : ℤ :=
  let f := a / b
  let r := a % b
  if 2 * r < b then f
  else if b < 2 * r then f + 1
  else if f % 2 = 0 then f else f + 1

/-- Significand and binary exponent of the binary64 value nearest to `n/d`
(`n, d > 0`): scale `n/d` into `[2^52, 2^53)` and round half to even. -/
def fl64Parts (n d : ℤ) : ℤ × ℤ :=
  let u := scaleUpZ 1200 n d 0
  let p := scaleDownZ 1200 u.1 u.2.1 u.2.2
  (roundHalfEvenZ p.1 p.2.1, p.2.2)

/-- The binary64 value nearest to `q` (round to nearest, ties to even), as an
exact rational. -/
def fl64 (q : ℚ) : ℚ :=
  if q.num = 0 then 0
  else if 0 < q.num then
    let p := fl64Parts q.num (q.den : ℤ)
    if 0 ≤ p.2 then mkRat (p.1 * 2 ^ p.2.toNat) 1 else mkRat p.1 (2 ^ (-p.2).toNat)
  else
    let p := fl64Parts (-q.num) (q.den : ℤ)
    if 0 ≤ p.2 then mkRat (-(p.1 * 2 ^ p.2.toNat)) 1 else mkRat (-p.1) (2 ^ (-p.2).toNat)

/-- Ceiling of a rational as an integer (`math.Ceil` is exact on binary64
values, and Go's `int(...)` conversion of the integral result is exact). -/
def ratCeil (q : ℚ) : ℤ := -(-q.num / (q.den : ℤ))

/-! ## The `Audio` reader handle (audio.go)

The fields of the Go `Audio` struct that the verified operations observe.
`duration` (a Go `float64` parsed from ffprobe text) holds the exact rational
value of that binary64 number; `started` models `cmd != nil` (the ffmpeg
subprocess has been spawned); `buffer = none` models a nil buffer; `pipe` is
the sequence of bytes the ffmpeg stdout pipe still has to deliver. -/

structure Audio where
  samplerate : Nat
  channels : Nat
  bps : Nat
  duration : ℚ
  ended : Bool
  started : Bool
  buffer : Option (List Nat)
  pipe : List Nat
deriving DecidableEq

/-- Embedding of `Total()` (audio.go): `frame = channels * bps / 8`,
`second = samplerate * frame`, `total = int(math.Ceil(float64(second) *
duration))` — the `int → float64` conversion and the product each round to
the nearest binary64 value (`fl64`) before the exact `Ceil` — and the result
is `total + (frame - total%frame) % frame`. All quantities arising from a
real handle are nonnegative, where Go's truncated `%` and the Euclidean `%`
used here agree. -/
def Total (audio : Audio) : ℤ :=
  let frame : ℤ := (audio.channels * audio.bps / 8 : ℕ)
  let second : ℕ := audio.samplerate * (audio.channels * audio.bps / 8)
  let total : ℤ := ratCeil (fl64 (fl64 (second : ℚ) * audio.duration))
  total + (frame - total % frame) % frame

/-- Embedding of `SetBuffer` (audio.go): reject (with an error, leaving the
handle unchanged) a buffer whose length is not a multiple of
`bps/8 * channels`, otherwise install the buffer. Go's `%` panics when
`bps/8 * channels` is zero. -/
def setBuffer (audio : Audio) (buffer : List Nat) : GoResult (Audio × Option String) :=
  if audio.bps / 8 * audio.channels = 0 then .panic
  else if buffer.length % (audio.bps / 8 * audio.channels) ≠ 0 then
    .ok (audio,
      some ("buffer size must be multiple of " ++ toString (audio.bps / 8 * audio.channels)))
  else .ok ({ audio with buffer := some buffer }, none)

/-- Embedding of `Close()` (audio.go): set `ended`; closing the pipe and
waiting on the subprocess have no further observable effect on the handle. -/
def closeAudio (audio : Audio) : Audio := { audio with ended := true }

/-- Embedding of `init()` (audio.go): spawn the ffmpeg subprocess (`started`)
and, when the handle's buffer is nil, allocate one second's worth of zeroed
bytes. -/
def initAudio (audio : Audio) : Audio :=
  let a := { audio with started := true }
  match a.buffer with
  | none => { a with buffer := some (List.replicate (a.samplerate * a.channels * a.bps / 8) 0) }
  | some _ => a

/-- Embedding of `Read()` (audio.go): a closed handle returns `false`
immediately; otherwise the handle is lazily initialized, `io.ReadFull` moves
`n = min(len(buffer), available)` bytes from the pipe into the buffer, and on
a short read (`n < len(buffer)`) the buffer is truncated to the bytes
actually delivered and the handle is closed. Returns `n > 0`. -/
def readAudio (audio : Audio) : Bool × Audio :=
  if audio.ended then (false, audio)
  else
    let a := if audio.started then audio else initAudio audio
    let buf := a.buffer.getD []
    let n := min buf.length a.pipe.length
    let a2 := { a with buffer := some (a.pipe.take buf.length), pipe := a.pipe.drop buf.length }
    if n < buf.length then (decide (0 < n), closeAudio a2) else (decide (0 < n), a2)

/-- C6: on a well-formed handle (`bps/8 * channels > 0`), `SetBuffer` succeeds
and installs the given buffer exactly when the buffer's length is a multiple
of `bps/8 * channels`, and otherwise returns an error leaving the handle —
in particular its stored buffer — unchanged. -/
theorem setBuffer_spec (audio : Audio) (buffer : List Nat)
    (h : 0 < audio.bps / 8 * audio.channels) :
    (buffer.length % (audio.bps / 8 * audio.channels) = 0 →
      setBuffer audio buffer = .ok ({ audio with buffer := some buffer }, none)) ∧
    (buffer.length % (audio.bps / 8 * audio.channels) ≠ 0 →
      setBuffer audio buffer = .ok (audio,
        some ("buffer size must be multiple of " ++
          toString (audio.bps / 8 * audio.channels)))) := by
  unfold setBuffer
  rw [if_neg (by omega)]
  constructor
  · intro h0
    rw [if_neg (by omega)]
  · intro h0
    rw [if_pos h0]

/-- Concrete reader handle: 1.032 s (= 129/125), 48000 Hz, 2 channels,
16 bits per sample. -/
def sampleHandle : Audio :=
  { samplerate := 48000, channels := 2, bps := 16, duration := 129 / 125,
    ended := false, started := false, buffer := none, pipe := [] }

/-- C6 witness: with `channels = 2` and `bps = 16` a 101-byte buffer is
rejected (handle unchanged) and a 12-byte buffer is installed. -/
theorem setBuffer_spec_witness :
    setBuffer sampleHandle (List.replicate 101 0) = .ok (sampleHandle,
      some "buffer size must be multiple of 4") ∧
    setBuffer sampleHandle (List.replicate 12 0) =
      .ok ({ sampleHandle with buffer := some (List.replicate 12 0) }, none) :=
  ⟨(setBuffer_spec sampleHandle (List.replicate 101 0) (by decide)).2 (by decide),
   (setBuffer_spec sampleHandle (List.replicate 12 0) (by decide)).1 (by decide)⟩

lemma roundUp_eq (frame t : ℤ) (hf : 0 < frame) :
    t + (frame - t % frame) % frame = frame * ((t + frame - 1) / frame) := by
  have h := Int.ediv_add_emod t frame
  set q := t / frame with hq
  set s := t % frame with hs
  have hs0 : 0 ≤ s := Int.emod_nonneg t (by omega)
  have hslt : s < frame := Int.emod_lt_of_pos t hf
  rw [← h]
  by_cases hz : s = 0
  · rw [hz, sub_zero, Int.emod_self]
    have he : frame * q + 0 + frame - 1 = (frame - 1) + q * frame := by ring
    rw [he, Int.add_mul_ediv_right _ _ (by omega),
      Int.ediv_eq_zero_of_lt (by omega) (by omega)]
    ring
  · rw [Int.emod_eq_of_lt (by omega) (by omega)]
    have he : frame * q + s + frame - 1 = (s - 1) + (q + 1) * frame := by ring
    rw [he, Int.add_mul_ediv_right _ _ (by omega),
      Int.ediv_eq_zero_of_lt (by omega) (by omega)]
    ring

/-- Concrete handle whose `float64` duration exposes the rounding step:
`duration = 0.33333333333333337` (the binary64 value `3002399751580331/2^53`),
3 Hz sample rate, 1 channel, 8 bits per sample. -/
def floatCounterHandle : Audio :=
  { samplerate := 3, channels := 1, bps := 8,
    duration := mkRat 3002399751580331 9007199254740992,
    ended := false, started := false, buffer := none, pipe := [] }

/-- C7 counterexample: the claim's exact-arithmetic formula disagrees with the
code. For `floatCounterHandle`, the exact product `second * duration` is
`3 * 3002399751580331/2^53 = 1 + 2^-53`, which the `float64` multiplication
rounds to nearest-even `1.0` **before** `math.Ceil`, so `Total()` returns 1 —
but `ceil(d * r * c * (b/8)) = ⌈1 + 2^-53⌉ = 2` rounded up to a multiple of the
1-byte frame size is 2. -/
theorem total_float_counterexample :
    Total floatCounterHandle = 1 ∧
    ¬(Total floatCounterHandle =
      ((floatCounterHandle.channels * (floatCounterHandle.bps / 8) : ℕ) : ℤ) *
        ((⌈floatCounterHandle.duration *
              ((floatCounterHandle.samplerate * floatCounterHandle.channels *
                (floatCounterHandle.bps / 8) : ℕ) : ℚ)⌉ +
            ((floatCounterHandle.channels * (floatCounterHandle.bps / 8) : ℕ) : ℤ) - 1) /
          ((floatCounterHandle.channels * (floatCounterHandle.bps / 8) : ℕ) : ℤ))) := by
  have hT : Total floatCounterHandle = 1 := by
    have h1 : fl64 ((floatCounterHandle.samplerate *
        (floatCounterHandle.channels * floatCounterHandle.bps / 8) : ℕ) : ℚ) = 3 := by decide
    have h2 : (3 : ℚ) * floatCounterHandle.duration =
        mkRat 9007199254740993 9007199254740992 := by
      simp only [floatCounterHandle]
      rw [Rat.mkRat_eq_div, Rat.mkRat_eq_div]
      norm_num
    have h3 : ratCeil (fl64 (mkRat 9007199254740993 9007199254740992)) = 1 := by decide
    unfold Total
    dsimp only
    rw [h1, h2, h3]
    decide
  have hE : ⌈floatCounterHandle.duration *
      ((floatCounterHandle.samplerate * floatCounterHandle.channels *
        (floatCounterHandle.bps / 8) : ℕ) : ℚ)⌉ = (2 : ℤ) := by
    simp only [floatCounterHandle]
    rw [Rat.mkRat_eq_div, Int.ceil_eq_iff]
    norm_num
  refine ⟨hT, fun hcontra => ?_⟩
  rw [hT, hE] at hcontra
  exact absurd hcontra (by decide)

/-- C7 (amended): on a handle with `8 ∣ bps`, positive channel count and
positive bit depth, `Total()` is the ceiling of the *binary64-rounded* product
`fl64(duration * fl64(samplerate * channels * (bps/8)))` rounded up to the
next multiple of the frame size `channels * (bps/8)`, and is in particular
always a multiple of the frame size. -/
theorem total_spec (audio : Audio) (h8 : 8 ∣ audio.bps) (hc : 0 < audio.channels)
    (hb : 0 < audio.bps) :
    Total audio =
      ((audio.channels * (audio.bps / 8) : ℕ) : ℤ) *
        ((ratCeil (fl64 (audio.duration *
              fl64 ((audio.samplerate * audio.channels * (audio.bps / 8) : ℕ) : ℚ))) +
            ((audio.channels * (audio.bps / 8) : ℕ) : ℤ) - 1) /
          ((audio.channels * (audio.bps / 8) : ℕ) : ℤ)) ∧
    ((audio.channels * (audio.bps / 8) : ℕ) : ℤ) ∣ Total audio := by
  have hm8 : 8 * (audio.bps / 8) = audio.bps := Nat.mul_div_cancel' h8
  have hframe_eq : audio.channels * audio.bps / 8 = audio.channels * (audio.bps / 8) :=
    Nat.mul_div_assoc audio.channels h8
  have hfpos : 0 < audio.channels * (audio.bps / 8) := Nat.mul_pos hc (by omega)
  have hmain : Total audio =
      ((audio.channels * (audio.bps / 8) : ℕ) : ℤ) *
        ((ratCeil (fl64 (audio.duration *
              fl64 ((audio.samplerate * audio.channels * (audio.bps / 8) : ℕ) : ℚ))) +
            ((audio.channels * (audio.bps / 8) : ℕ) : ℤ) - 1) /
          ((audio.channels * (audio.bps / 8) : ℕ) : ℤ)) := by
    unfold Total
    dsimp only
    rw [hframe_eq]
    rw [show audio.samplerate * (audio.channels * (audio.bps / 8)) =
        audio.samplerate * audio.channels * (audio.bps / 8) from (Nat.mul_assoc _ _ _).symm]
    rw [mul_comm (fl64 ((audio.samplerate * audio.channels * (audio.bps / 8) : ℕ) : ℚ))
      audio.duration]
    exact roundUp_eq _ _ (by exact_mod_cast hfpos)
  exact ⟨hmain, hmain ▸ dvd_mul_right _ _⟩

/-- C7 witness: for the 1.032-second, 48000 Hz, 2-channel, 16-bit handle the
binary64 product is exactly 198144, so `Total()` is 198144, a multiple of the
4-byte frame. -/
theorem total_spec_witness :
    Total sampleHandle = 198144 ∧ (4 : ℤ) ∣ Total sampleHandle := by
  obtain ⟨h1, h2⟩ := total_spec sampleHandle ⟨2, rfl⟩ (by decide) (by decide)
  have hA : fl64 ((sampleHandle.samplerate * sampleHandle.channels *
      (sampleHandle.bps / 8) : ℕ) : ℚ) = 192000 := by decide
  rw [hA] at h1
  have hB : sampleHandle.duration * (192000 : ℚ) = 198144 := by
    simp only [sampleHandle]
    norm_num
  rw [hB] at h1
  have hC : ratCeil (fl64 (198144 : ℚ)) = 198144 := by decide
  rw [hC] at h1
  have h4 : ((sampleHandle.channels * (sampleHandle.bps / 8) : ℕ) : ℤ) = 4 := by decide
  rw [h4] at h1 h2
  refine ⟨?_, h2⟩
  rw [h1]
  decide

/-- C8: a handle that has entered the closed state (`ended`, set by `Close()`
or by a short read) stays there: `Read()` on a closed handle returns `false`
and leaves the handle — its buffer, its subprocess state — untouched;
`Close()` puts any handle into the closed state; and a `Read()` that observes
end-of-stream (fewer pipe bytes available than the buffer asks for) leaves the
handle closed. -/
theorem read_close_state (audio : Audio) :
    (audio.ended = true → readAudio audio = (false, audio)) ∧
    (closeAudio audio).ended = true ∧
    (audio.pipe.length <
        ((if audio.started then audio else initAudio audio).buffer.getD []).length →
      (readAudio audio).2.ended = true) := by
  refine ⟨fun h => ?_, rfl, fun h => ?_⟩
  · unfold readAudio
    rw [if_pos h]
  · unfold readAudio
    by_cases he : audio.ended
    · rw [if_pos he]
      exact he
    · rw [if_neg he]
      have hpipe : (if audio.started then audio else initAudio audio).pipe = audio.pipe := by
        by_cases hs : audio.started
        · rw [if_pos hs]
        · rw [if_neg hs]
          unfold initAudio
          cases hbuf : audio.buffer <;> simp [hbuf]
      set A := if audio.started then audio else initAudio audio with hA
      dsimp only
      rw [hpipe, if_pos (min_lt_iff.mpr (Or.inr h))]
      rfl

/-- Closed concrete handle (a short read has already happened). -/
def closedHandle : Audio :=
  { sampleHandle with ended := true, started := true, buffer := some [0] }

/-- C8 witness: on a concrete closed handle, `Read()` is a no-op returning
`false`, and the closed state is preserved by further reads and closes. -/
theorem read_close_state_witness :
    readAudio closedHandle = (false, closedHandle) ∧
    (closeAudio closedHandle).ended = true ∧
    (readAudio closedHandle).2.ended = true :=
  ⟨(read_close_state closedHandle).1 rfl, (read_close_state closedHandle).2.1,
   (read_close_state closedHandle).2.2 (by decide)⟩

end Aio
